import Mathlib

/-!
Verification of `generate-icons.js` (RemoteWorkTimer), a dependency-free PNG
icon generator.  Byte buffers (`Buffer`/`Uint32Array`) are modelled as
`List Nat` (bytes) and 32-bit accumulators as `Nat` values kept below `2^32`;
all JavaScript bitwise operations (`^`, `&`, `>>>`) on those ranges coincide
with `Nat.xor`/`Nat.land`/`Nat.shiftRight` on the unsigned interpretation.
-/

namespace RemoteWorkTimer

/-- The reversed CRC-32 polynomial `0xEDB88320` (ISO 3309 / ITU-T V.42). -/
def CRC_POLY : Nat := 0xEDB88320

/-- One iteration of the `crcTable` inner loop:
`c = (c & 1) ? (0xEDB88320 ^ (c >>> 1)) : (c >>> 1)` (source line 38). -/
def bitStep (c : Nat) : Nat :=
  if c &&& 1 = 1 then CRC_POLY ^^^ (c >>> 1) else c >>> 1

/-- Entry `crcTable[n]`: eight `bitStep` iterations starting from `n`
(the `crcTable` IIFE, source lines 33–43). -/
def crcTableEntry (n : Nat) : Nat := bitStep^[8] n

/-- One step of the `crc32` loop:
`crc = crcTable[(crc ^ buf[i]) & 0xFF] ^ (crc >>> 8)` (source line 48). -/
def crc32Update (crc b : Nat) : Nat :=
  crcTableEntry ((crc ^^^ b) &&& 0xFF) ^^^ (crc >>> 8)

/-- Function `crc32(buf)` (source lines 45–51): seed `0xFFFFFFFF`, fold the table-driven
update over the bytes, complement at the end. -/
def crc32 (buf : List Nat) : Nat :=
  (buf.foldl crc32Update 0xFFFFFFFF) ^^^ 0xFFFFFFFF

/-- The textbook bit-serial CRC-32 with reversed polynomial `0xEDB88320`:
each byte is xored into the accumulator and eight polynomial bit-steps are
run.  This is the reference definition the table-driven `crc32` must match. -/
def crc32_bitwise (buf : List Nat) : Nat :=
  (buf.foldl (fun crc b => bitStep^[8] (crc ^^^ b)) 0xFFFFFFFF) ^^^ 0xFFFFFFFF

lemma bitStep_eq (c : Nat) :
    bitStep c = if c % 2 = 1 then CRC_POLY ^^^ (c / 2) else c / 2 := by
  unfold bitStep
  rw [Nat.and_one_is_mod, Nat.shiftRight_eq_div_pow, Nat.pow_one]

lemma xor_mul_pow_two_eq_add {lo : Nat} (hi k : Nat) (h : lo < 2 ^ k) :
    lo ^^^ 2 ^ k * hi = 2 ^ k * hi + lo := by
  apply Nat.eq_of_testBit_eq
  intro j
  rw [Nat.testBit_xor, Nat.testBit_mul_pow_two_add _ h, Nat.testBit_mul_pow_two]
  by_cases hj : j < k
  · simp [hj, Nat.not_le_of_lt hj]
  · have hlo : lo < 2 ^ j :=
      lt_of_lt_of_le h (Nat.pow_le_pow_right (by norm_num) (le_of_not_lt hj))
    simp [hj, le_of_not_lt hj, Nat.testBit_lt_two_pow hlo]

lemma bitStep_xor_even {c v : Nat} (hv : v % 2 = 0) :
    bitStep (c ^^^ v) = bitStep c ^^^ (v / 2) := by
  rw [bitStep_eq, bitStep_eq]
  have hpar : (c ^^^ v) % 2 = c % 2 := by
    rw [← Nat.and_one_is_mod, Nat.and_xor_distrib_right, Nat.and_one_is_mod,
      Nat.and_one_is_mod, hv, Nat.xor_zero]
  rw [hpar, Nat.xor_div_two]
  by_cases hc : c % 2 = 1
  · simp [hc, Nat.xor_assoc]
  · simp [hc]

lemma iterate_bitStep_xor (k : Nat) :
    ∀ c hi, bitStep^[k] (c ^^^ 2 ^ k * hi) = bitStep^[k] c ^^^ hi := by
  induction k with
  | zero => intro c hi; simp
  | succ k ih =>
    intro c hi
    rw [Function.iterate_succ_apply, Function.iterate_succ_apply]
    have hv : (2 ^ (k + 1) * hi) % 2 = 0 := by
      have h2 : 2 ^ (k + 1) * hi = 2 * (2 ^ k * hi) := by ring
      rw [h2]; exact Nat.mul_mod_right 2 _
    rw [bitStep_xor_even hv]
    have hdiv : 2 ^ (k + 1) * hi / 2 = 2 ^ k * hi := by
      have h2 : 2 ^ (k + 1) * hi = 2 ^ k * hi * 2 := by ring
      rw [h2, Nat.mul_div_cancel _ (by norm_num)]
    rw [hdiv, ih]

lemma iterate_bitStep_eq_table (m : Nat) :
    bitStep^[8] m = crcTableEntry (m &&& 0xFF) ^^^ (m >>> 8) := by
  have hmask : m &&& 0xFF = m % 256 := by
    have h : (0xFF : Nat) = 2 ^ 8 - 1 := by norm_num
    rw [h, Nat.and_pow_two_sub_one_eq_mod]
  have hm : m = (m % 256) ^^^ 2 ^ 8 * (m / 256) := by
    rw [xor_mul_pow_two_eq_add (m / 256) 8 (by omega)]
    omega
  conv_lhs => rw [hm]
  rw [iterate_bitStep_xor]
  rw [hmask, Nat.shiftRight_eq_div_pow]
  rfl

lemma xor_shiftRight (a b i : Nat) :
    (a ^^^ b) >>> i = a >>> i ^^^ b >>> i := by
  apply Nat.eq_of_testBit_eq
  intro j
  simp [Nat.testBit_shiftRight, Nat.testBit_xor]

lemma crc32Update_eq_bitwise (crc : Nat) {b : Nat} (hb : b < 256) :
    crc32Update crc b = bitStep^[8] (crc ^^^ b) := by
  rw [iterate_bitStep_eq_table (crc ^^^ b)]
  unfold crc32Update
  have hsr : (crc ^^^ b) >>> 8 = crc >>> 8 := by
    rw [xor_shiftRight]
    have hb8 : b >>> 8 = 0 := by
      rw [Nat.shiftRight_eq_div_pow]
      exact Nat.div_eq_of_lt (by omega)
    rw [hb8, Nat.xor_zero]
  rw [hsr]

lemma crc32_fold_eq_bitwise (buf : List Nat) :
    ∀ crc, (∀ b ∈ buf, b < 256) →
      buf.foldl crc32Update crc = buf.foldl (fun c b => bitStep^[8] (c ^^^ b)) crc := by
  induction buf with
  | nil => intro crc _; rfl
  | cons b rest ih =>
    intro crc hall
    simp only [List.foldl_cons]
    rw [crc32Update_eq_bitwise crc (hall b (by simp))]
    exact ih _ (fun x hx => hall x (by simp [hx]))

lemma bitStep_lt (c : Nat) (hc : c < 2 ^ 32) : bitStep c < 2 ^ 32 := by
  rw [bitStep_eq]
  have hdiv : c / 2 < 2 ^ 32 := lt_of_le_of_lt (Nat.div_le_self c 2) hc
  by_cases h : c % 2 = 1
  · simp only [h, if_pos]
    exact Nat.xor_lt_two_pow (by norm_num [CRC_POLY]) hdiv
  · simp only [h, if_neg, ite_false]
    exact hdiv

lemma iterate_bitStep_lt (k c : Nat) (hc : c < 2 ^ 32) : bitStep^[k] c < 2 ^ 32 := by
  induction k generalizing c with
  | zero => simpa using hc
  | succ k ih =>
    rw [Function.iterate_succ_apply]
    exact ih _ (bitStep_lt c hc)

lemma crc32Update_lt (crc b : Nat) (hc : crc < 2 ^ 32) :
    crc32Update crc b < 2 ^ 32 := by
  unfold crc32Update crcTableEntry
  apply Nat.xor_lt_two_pow
  · exact iterate_bitStep_lt 8 _ (lt_of_le_of_lt Nat.and_le_right (by norm_num))
  · refine lt_of_le_of_lt ?_ hc
    rw [Nat.shiftRight_eq_div_pow]
    exact Nat.div_le_self _ _

lemma crc32_fold_lt (buf : List Nat) :
    ∀ crc, crc < 2 ^ 32 → buf.foldl crc32Update crc < 2 ^ 32 := by
  induction buf with
  | nil => intro crc hc; simpa using hc
  | cons b rest ih =>
    intro crc hc
    simp only [List.foldl_cons]
    exact ih _ (crc32Update_lt crc b hc)

set_option maxRecDepth 20000 in
/-- C1: `crc32` is the standard CRC-32 with reversed polynomial `0xEDB88320`:
the table-driven byte update agrees with the bit-serial reference definition on
every byte sequence, the result is always masked to 32 bits, and the known test
vectors hold (`"123456789"` ↦ `0xCBF43926`, empty ↦ `0`). -/
theorem crc32_is_standard :
    (∀ buf : List Nat, (∀ b ∈ buf, b < 256) → crc32 buf = crc32_bitwise buf) ∧
    (∀ buf : List Nat, crc32 buf < 2 ^ 32) ∧
    crc32 [0x31, 0x32, 0x33, 0x34, 0x35, 0x36, 0x37, 0x38, 0x39] = 0xCBF43926 ∧
    crc32 [] = 0 := by
  refine ⟨?_, ?_, ?_, ?_⟩
  · intro buf hall
    unfold crc32 crc32_bitwise
    rw [crc32_fold_eq_bitwise buf _ hall]
  · intro buf
    unfold crc32
    exact Nat.xor_lt_two_pow (crc32_fold_lt buf _ (by norm_num)) (by norm_num)
  · decide
  · decide

/-- Witness for C1: the table-driven and bit-serial computations agree on a
concrete byte sequence. -/
theorem crc32_is_standard_witness :
    crc32 [0, 255, 137, 80] = crc32_bitwise [0, 255, 137, 80] :=
  crc32_is_standard.1 [0, 255, 137, 80] (by decide)

/-! ### PNG chunk assembly -/

/-- Operation `buf.writeUInt32BE(n, off)`: store the four big-endian bytes of the 32-bit
value `n` at offsets `off..off+3`. -/
def writeUInt32BE (buf : List Nat) (n off : Nat) : List Nat :=
  (((buf.set off (n / 2 ^ 24 % 256)).set (off + 1) (n / 2 ^ 16 % 256)).set
    (off + 2) (n / 2 ^ 8 % 256)).set (off + 3) (n % 256)

/-- The four big-endian bytes of a 32-bit value. -/
def u32BE (n : Nat) : List Nat :=
  [n / 2 ^ 24 % 256, n / 2 ^ 16 % 256, n / 2 ^ 8 % 256, n % 256]

/-- Big-endian reading of a byte list (decoder side, for round-trip checks). -/
def beNum (l : List Nat) : Nat := l.foldl (fun a b => a * 256 + b) 0

/-- Function `makeChunk(type, data)` (source lines 58–71): length word, type bytes,
data verbatim, CRC word over type ++ data.  The 4-byte words are built the way
the source does (`Buffer.alloc(4)` then `writeUInt32BE`). -/
def makeChunk (type data : List Nat) : List Nat :=
  writeUInt32BE (List.replicate 4 0) data.length 0 ++ type ++ data ++
    writeUInt32BE (List.replicate 4 0) (crc32 (type ++ data)) 0

lemma writeUInt32BE_alloc4 (n : Nat) :
    writeUInt32BE (List.replicate 4 0) n 0 = u32BE n := rfl

lemma u32BE_length (n : Nat) : (u32BE n).length = 4 := rfl

lemma beNum_u32BE {n : Nat} (h : n < 2 ^ 32) : beNum (u32BE n) = n := by
  show (((0 * 256 + n / 2 ^ 24 % 256) * 256 + n / 2 ^ 16 % 256) * 256
      + n / 2 ^ 8 % 256) * 256 + n % 256 = n
  omega

lemma crc32_lt (buf : List Nat) : crc32 buf < 2 ^ 32 := by
  unfold crc32
  exact Nat.xor_lt_two_pow (crc32_fold_lt buf _ (by norm_num)) (by norm_num)

lemma makeChunk_eq (type data : List Nat) :
    makeChunk type data =
      u32BE data.length ++ type ++ data ++ u32BE (crc32 (type ++ data)) := by
  unfold makeChunk
  rw [writeUInt32BE_alloc4, writeUInt32BE_alloc4]

lemma drop_append_left4 (l₁ l₂ : List Nat) (k : Nat) (h : l₁.length = 4) :
    (l₁ ++ l₂).drop (4 + k) = l₂.drop k := by
  rw [← List.drop_drop, List.drop_left' h]

/-- C2: `makeChunk` emits exactly length word (big-endian), type, data,
CRC word (big-endian, over type ++ data); the result is `data.length + 12`
bytes, and each field decodes back to what was written. -/
theorem makeChunk_layout (type data : List Nat)
    (ht : type.length = 4) (hd : data.length < 2 ^ 32) :
    (makeChunk type data).length = data.length + 12 ∧
    beNum ((makeChunk type data).take 4) = data.length ∧
    ((makeChunk type data).drop 4).take 4 = type ∧
    ((makeChunk type data).drop 8).take data.length = data ∧
    beNum ((makeChunk type data).drop (8 + data.length)) =
      crc32 (type ++ data) := by
  rw [makeChunk_eq]
  have hassoc : u32BE data.length ++ type ++ data ++ u32BE (crc32 (type ++ data)) =
      u32BE data.length ++ (type ++ (data ++ u32BE (crc32 (type ++ data)))) := by
    simp [List.append_assoc]
  rw [hassoc]
  refine ⟨?_, ?_, ?_, ?_, ?_⟩
  · simp only [List.length_append, u32BE_length, ht]
    omega
  · rw [List.take_left' (u32BE_length _), beNum_u32BE hd]
  · rw [List.drop_left' (u32BE_length _), List.take_left' ht]
  · rw [show (8 : Nat) = 4 + 4 from by norm_num,
      drop_append_left4 _ _ _ (u32BE_length _), List.drop_left' ht,
      List.take_left' rfl]
  · rw [show 8 + data.length = 4 + (4 + data.length) from by omega,
      drop_append_left4 _ _ _ (u32BE_length _),
      drop_append_left4 _ _ _ ht, List.drop_left' rfl,
      beNum_u32BE (crc32_lt _)]

/-- Witness for C2: the layout theorem applied to a concrete chunk. -/
theorem makeChunk_layout_witness :
    (makeChunk [73, 72, 68, 82] [1, 2]).length = ([1, 2] : List Nat).length + 12 :=
  (makeChunk_layout [73, 72, 68, 82] [1, 2] rfl (by norm_num)).1

/-! ### PNG image assembly -/

/-- The fixed 8-byte PNG signature (source line 28). -/
def PNG_SIGNATURE : List Nat := [137, 80, 78, 71, 13, 10, 26, 10]

/-- Function `makeIHDR(width, height)` (source lines 76–86): a zeroed 13-byte buffer
with width and height stored big-endian, then bit depth 8, color type 2 (RGB),
compression 0, filter 0, interlace 0. -/
def makeIHDR (width height : Nat) : List Nat :=
  (((((writeUInt32BE (writeUInt32BE (List.replicate 13 0) width 0) height 4).set
    8 8).set 9 2).set 10 0).set 11 0).set 12 0

/-- Zero padding up to length `n`: the bytes `Buffer.alloc` leaves in place
when a copy runs short. -/
def padTo (n : Nat) (l : List Nat) : List Nat := l ++ List.replicate (n - l.length) 0

/-- One scanline of `rawBuf` (source lines 95–99): filter byte `0` ("None")
followed by the row's `width*3` color bytes copied verbatim from `pixels`. -/
def scanRow (pixels : List Nat) (rowLen y : Nat) : List Nat :=
  0 :: padTo rowLen ((pixels.drop (y * rowLen)).take rowLen)

/-- The framed pre-compression stream `rawBuf` (source lines 92–99). -/
def rawStream (pixels : List Nat) (width height : Nat) : List Nat :=
  ((List.range height).map (scanRow pixels (width * 3))).flatten

/-- ASCII bytes of the "IHDR" tag. -/
def typeIHDR : List Nat := [73, 72, 68, 82]

/-- ASCII bytes of the "IDAT" tag. -/
def typeIDAT : List Nat := [73, 68, 65, 84]

/-- ASCII bytes of the "IEND" tag. -/
def typeIEND : List Nat := [73, 69, 78, 68]

/-- Function `encodePNG` (source lines 91–108); the external DEFLATE collaborator
(`zlib.deflateSync`, level 9) is abstracted as the parameter `deflate`. -/
def encodePNG (deflate : List Nat → List Nat) (pixels : List Nat)
    (width height : Nat) : List Nat :=
  PNG_SIGNATURE ++ makeChunk typeIHDR (makeIHDR width height) ++
    makeChunk typeIDAT (deflate (rawStream pixels width height)) ++
    makeChunk typeIEND []

lemma makeIHDR_eq (width height : Nat) :
    makeIHDR width height = u32BE width ++ u32BE height ++ [8, 2, 0, 0, 0] := rfl

/-- C3: the encoder's output is exactly the 8-byte signature, one header chunk
whose 13-byte payload is width/height big-endian plus bit depth 8, color
type 2 (truecolor RGB), compression 0, filter 0, interlace 0, one data chunk
holding the whole compressed payload, and one zero-length terminator chunk —
nothing else. -/
theorem encodePNG_layout (deflate : List Nat → List Nat) (pixels : List Nat)
    (width height : Nat) :
    encodePNG deflate pixels width height =
      [137, 80, 78, 71, 13, 10, 26, 10] ++
        makeChunk [73, 72, 68, 82] (u32BE width ++ u32BE height ++ [8, 2, 0, 0, 0]) ++
        makeChunk [73, 68, 65, 84] (deflate (rawStream pixels width height)) ++
        makeChunk [73, 69, 78, 68] [] ∧
    (makeIHDR width height).length = 13 := by
  constructor
  · rw [encodePNG, makeIHDR_eq]
    rfl
  · rw [makeIHDR_eq]
    simp [u32BE]

lemma scanRow_length (pixels : List Nat) (rowLen y : Nat) :
    (scanRow pixels rowLen y).length = 1 + rowLen := by
  have h : ((pixels.drop (y * rowLen)).take rowLen).length ≤ rowLen :=
    List.length_take_le rowLen _
  simp only [scanRow, padTo, List.length_cons, List.length_append,
    List.length_replicate]
  omega

lemma flatten_map_range'_length (f : Nat → List Nat) (L : Nat)
    (hf : ∀ i, (f i).length = L) :
    ∀ n s, (((List.range' s n).map f).flatten).length = n * L := by
  intro n
  induction n with
  | zero => intro s; simp
  | succ n ih =>
    intro s
    rw [List.range'_succ]
    simp only [List.map_cons, List.flatten_cons, List.length_append, hf, ih]
    ring

lemma flatten_map_range'_drop (f : Nat → List Nat) (L : Nat)
    (hf : ∀ i, (f i).length = L) :
    ∀ (y n s : Nat), y < n →
      ((((List.range' s n).map f).flatten).drop (y * L)) =
        ((List.range' (s + y) (n - y)).map f).flatten := by
  intro y
  induction y with
  | zero => intro n s _; simp
  | succ y ih =>
    intro n s hy
    obtain ⟨m, rfl⟩ : ∃ m, n = m + 1 := ⟨n - 1, by omega⟩
    rw [List.range'_succ]
    simp only [List.map_cons, List.flatten_cons]
    have hsplit : (y + 1) * L = L + y * L := by ring
    rw [hsplit, ← List.drop_drop, List.drop_left' (hf s)]
    rw [ih m (s + 1) (by omega)]
    have h1 : s + 1 + y = s + (y + 1) := by omega
    have h2 : m - y = m + 1 - (y + 1) := by omega
    rw [h1, h2]

/-- C4: the pre-compression stream has exactly `H*(1+3*W)` bytes; for every
row `y < H` the byte at offset `y*(1+3*W)` is the filter byte `0` and the
following `3*W` bytes are that row's color bytes copied verbatim. -/
theorem rawStream_layout (pixels : List Nat) (W H : Nat)
    (hlen : pixels.length = W * H * 3) :
    (rawStream pixels W H).length = H * (1 + 3 * W) ∧
    ∀ y, y < H →
      ((rawStream pixels W H).drop (y * (1 + 3 * W))).take (1 + 3 * W) =
        0 :: (pixels.drop (y * (3 * W))).take (3 * W) := by
  have hf : ∀ i, (scanRow pixels (W * 3) i).length = 1 + W * 3 :=
    fun i => scanRow_length pixels (W * 3) i
  constructor
  · rw [rawStream, List.range_eq_range',
      flatten_map_range'_length _ _ hf H 0]
    ring
  · intro y hy
    have hco : 1 + 3 * W = 1 + W * 3 := by ring
    rw [rawStream, List.range_eq_range', hco,
      flatten_map_range'_drop _ _ hf y H 0 hy]
    obtain ⟨k, hk⟩ : ∃ k, H - y = k + 1 := ⟨H - y - 1, by omega⟩
    rw [hk, List.range'_succ]
    simp only [List.map_cons, List.flatten_cons, Nat.zero_add]
    rw [List.take_left' (hf y)]
    have htk : ((pixels.drop (y * (W * 3))).take (W * 3)).length = W * 3 := by
      rw [List.length_take, List.length_drop, hlen]
      have h1 : (y + 1) * (W * 3) ≤ H * (W * 3) :=
        Nat.mul_le_mul_right _ (by omega)
      have h2 : W * H * 3 = H * (W * 3) := by ring
      have h3 : (y + 1) * (W * 3) = y * (W * 3) + W * 3 := by ring
      omega
    rw [scanRow, padTo, htk, Nat.sub_self, List.replicate_zero, List.append_nil]
    have hco2 : 3 * W = W * 3 := by ring
    rw [hco2]

/-- Witness for C4: the layout theorem applied to a concrete 1×2 buffer. -/
theorem rawStream_layout_witness :
    (rawStream [1, 2, 3, 4, 5, 6] 1 2).length = 2 * (1 + 3 * 1) :=
  (rawStream_layout [1, 2, 3, 4, 5, 6] 1 2 (by norm_num)).1

/-! ### Drawing helpers -/

/-- Function `setPixel` (source lines 114–121).  Coordinates are JavaScript numbers,
modelled as integers; the write is dropped when `x < 0`, `x >= width`,
`y < 0`, or when `idx + 2 >= pixels.length` (the backing-store length guard).
Note there is no explicit `y >= height` comparison, exactly as in the source. -/
def setPixel (pixels : List Nat) (width : Nat) (x y : Int) (r g b : Nat) :
    List Nat :=
  if x < 0 ∨ (width : Int) ≤ x ∨ y < 0 then pixels
  else if pixels.length ≤ (y.toNat * width + x.toNat) * 3 + 2 then pixels
  else ((pixels.set ((y.toNat * width + x.toNat) * 3) r).set
    ((y.toNat * width + x.toNat) * 3 + 1) g).set
    ((y.toNat * width + x.toNat) * 3 + 2) b

/-- Function `fillBackground` (source lines 123–129). -/
def fillBackground (pixels : List Nat) (width height : Nat) (r g b : Nat) :
    List Nat :=
  (List.range height).foldl (fun px (y : Nat) =>
    (List.range width).foldl (fun px (x : Nat) =>
      setPixel px width (x : Int) (y : Int) r g b) px) pixels

/-- The corner test of `fillRoundedRect` (source lines 137–152) as a pure
predicate on the loop offsets: `true` iff offset `(dx,dy)` is painted.
`Math.sqrt(d) > radius` on these arguments (`d`, `radius` nonnegative
integers well below `2^52`, `Math.sqrt` correctly rounded and monotone) holds
iff `d > radius^2`, so the double-precision comparison is expressed
exactly by the integer comparison of squares. -/
def insideRoundedRect (w h radius dx dy : Nat) : Bool :=
  let wi : Int := w
  let hi : Int := h
  let ri : Int := radius
  let dxi : Int := dx
  let dyi : Int := dy
  if dxi < ri ∧ dyi < ri then
    if (ri - dxi) ^ 2 + (ri - dyi) ^ 2 > ri ^ 2 then false else true
  else if wi - ri ≤ dxi ∧ dyi < ri then
    if (dxi - (wi - ri - 1)) ^ 2 + (ri - dyi) ^ 2 > ri ^ 2 then false else true
  else if dxi < ri ∧ hi - ri ≤ dyi then
    if (ri - dxi) ^ 2 + (dyi - (hi - ri - 1)) ^ 2 > ri ^ 2 then false else true
  else if wi - ri ≤ dxi ∧ hi - ri ≤ dyi then
    if (dxi - (wi - ri - 1)) ^ 2 + (dyi - (hi - ri - 1)) ^ 2 > ri ^ 2 then false
    else true
  else true

/-- Function `fillRoundedRect` (source lines 134–159): paint every offset of the
`w×h` rectangle whose corner test passes. -/
def fillRoundedRect (pixels : List Nat) (width : Nat) (x0 y0 : Int)
    (w h radius : Nat) (r g b : Nat) : List Nat :=
  (List.range h).foldl (fun px dy =>
    (List.range w).foldl (fun px dx =>
      if insideRoundedRect w h radius dx dy then
        setPixel px width (x0 + dx) (y0 + dy) r g b
      else px) px) pixels

/-- The 7×9 bitmap glyph for "R" (source lines 167–177); `true` = `'#'`. -/
def GLYPH_R : List (List Bool) :=
  [[true, true, true, true, true, false, false],
   [true, true, false, false, true, true, false],
   [true, true, false, false, true, true, false],
   [true, true, false, false, true, true, false],
   [true, true, true, true, true, false, false],
   [true, true, false, true, true, false, false],
   [true, true, false, false, true, true, false],
   [true, true, false, false, true, true, false],
   [true, true, false, false, false, true, true]]

/-- The 7×9 bitmap glyph for "W" (source lines 179–189); `true` = `'#'`. -/
def GLYPH_W : List (List Bool) :=
  [[true, false, false, false, false, true, false],
   [true, false, false, false, false, true, false],
   [true, false, false, false, false, true, false],
   [true, false, false, false, false, true, false],
   [true, false, true, true, false, true, false],
   [true, false, true, true, false, true, false],
   [true, true, false, false, true, true, false],
   [true, true, false, false, true, true, false],
   [true, false, false, false, false, true, false]]

/-- Function `drawGlyph` (source lines 194–212): paint each `'#'` cell as a
`scale×scale` block. -/
def drawGlyph (pixels : List Nat) (imgWidth : Nat) (glyph : List (List Bool))
    (startX startY : Int) (scale : Nat) (r g b : Nat) : List Nat :=
  (List.range glyph.length).foldl (fun px (row : Nat) =>
    (List.range (glyph.getD row []).length).foldl (fun px (col : Nat) =>
      if (glyph.getD row []).getD col false then
        (List.range scale).foldl (fun px (sy : Nat) =>
          (List.range scale).foldl (fun px (sx : Nat) =>
            setPixel px imgWidth (startX + (col : Int) * scale + (sx : Int))
              (startY + (row : Int) * scale + (sy : Int)) r g b) px) px
      else px) px) pixels

/-- Rounding `Math.round(a / 2)` for an integer `a`: JavaScript rounds the exact
half toward `+∞`, i.e. `⌊(a+1)/2⌋` (`/` on `Int` is floor division for a
positive divisor).  The quotient `a/2` is exact in doubles. -/
def roundHalf (a : Int) : Int := (a + 1) / 2

/-- Function `drawRW` (source lines 217–231).  `gap = Math.round(scale * 1.5)`
(`scale*1.5` is exact in doubles, so this is `(3*scale+1)/2`). -/
def drawRW (pixels : List Nat) (imgWidth : Nat) (rectX rectY rectW rectH : Int)
    (scale : Nat) : List Nat :=
  let glyphCols : Nat := 7
  let gap : Nat := (3 * scale + 1) / 2
  let totalTextW : Nat := glyphCols * scale * 2 + gap
  let totalTextH : Nat := 9 * scale
  let startX : Int := rectX + roundHalf (rectW - totalTextW)
  let startY : Int := rectY + roundHalf (rectH - totalTextH)
  let px := drawGlyph pixels imgWidth GLYPH_R startX startY scale 255 255 255
  drawGlyph px imgWidth GLYPH_W (startX + (glyphCols * scale + gap : Nat))
    startY scale 255 255 255

/-- The raster buffer `generateIcon` builds before encoding (source lines
237–254).  The derived values `Math.round(size*0.15)`, `Math.round(size*0.08)`
and `Math.round(size/50)` are modelled as exact half-up rational rounding
(`(3*size+10)/20`, `(4*size+25)/50`, `(size+25)/50`); an IEEE double can
differ from the exact rational only on product ties, which none of the
settled claims depend on. -/
def iconPixels (size : Nat) : List Nat :=
  let pixels := List.replicate (size * size * 3) 0
  let pixels := fillBackground pixels size size 17 19 24
  let margin := (3 * size + 10) / 20
  let rectW := size - margin * 2
  let rectH := size - margin * 2
  let radius := (4 * size + 25) / 50
  let pixels := fillRoundedRect pixels size (margin : Int) (margin : Int)
    rectW rectH radius 249 115 22
  let scale := max 1 ((size + 25) / 50)
  drawRW pixels size (margin : Int) (margin : Int) (rectW : Int) (rectH : Int)
    scale

/-- Function `generateIcon(size)` (source lines 237–257), the whole icon pipeline;
the DEFLATE collaborator is the parameter `deflate`. -/
def generateIcon (deflate : List Nat → List Nat) (size : Nat) : List Nat :=
  encodePNG deflate (iconPixels size) size size

/-- The framed stream the compressor is invoked on during `generateIcon` —
a pure function of `size` alone. -/
def iconRaw (size : Nat) : List Nat := rawStream (iconPixels size) size size

/-- C5: the icon composer is deterministic — the output is a pure function of
the target size and of the compressor's response on the one determined input
`iconRaw size`.  Two calls with the same size and the same (deterministic)
compressor are byte-identical, and no other input influences the output. -/
theorem generateIcon_deterministic (size : Nat) (d₁ d₂ : List Nat → List Nat)
    (h : d₁ (iconRaw size) = d₂ (iconRaw size)) :
    generateIcon d₁ size = generateIcon d₂ size := by
  unfold iconRaw at h
  unfold generateIcon encodePNG
  rw [h]

/-- Witness for C5: two evaluations of the pipeline at size 2 with the same
compressor agree. -/
theorem generateIcon_deterministic_witness :
    generateIcon id 2 = generateIcon id 2 :=
  generateIcon_deterministic 2 id id rfl

/-- C6: for a buffer allocated as `W*H*3` bytes, `setPixel` at any coordinate
outside `[0,W)×[0,H)` is a silent no-op: the buffer is returned unchanged.
In particular `y ≥ H` (for any in-range `x`) is fully caught by the
backing-store length guard even though no explicit `y < H` comparison
exists. -/
theorem setPixel_silent_noop (pixels : List Nat) (W H : Nat) (x y : Int)
    (r g b : Nat) (hlen : pixels.length = W * H * 3)
    (hout : x < 0 ∨ (W : Int) ≤ x ∨ y < 0 ∨ (H : Int) ≤ y) :
    setPixel pixels W x y r g b = pixels := by
  unfold setPixel
  rcases hout with hx | hx | hy | hy
  · rw [if_pos (Or.inl hx)]
  · rw [if_pos (Or.inr (Or.inl hx))]
  · rw [if_pos (Or.inr (Or.inr hy))]
  · by_cases hg : x < 0 ∨ (W : Int) ≤ x ∨ y < 0
    · rw [if_pos hg]
    · rw [if_neg hg]
      push_neg at hg
      obtain ⟨hx0, hxW, hy0⟩ := hg
      have hyH : H ≤ y.toNat := by omega
      have hxn : x.toNat < W := by omega
      have hidx : W * H ≤ y.toNat * W + x.toNat := by
        have h1 : H * W ≤ y.toNat * W := Nat.mul_le_mul_right W hyH
        have h2 : W * H = H * W := by ring
        omega
      have hguard : pixels.length ≤ (y.toNat * W + x.toNat) * 3 + 2 := by
        have h3 : W * H * 3 ≤ (y.toNat * W + x.toNat) * 3 :=
          Nat.mul_le_mul_right 3 hidx
        omega
      rw [if_pos hguard]

/-- Witness for C6: a write at `(x,y) = (0,5)` on a 1×1 buffer is dropped. -/
theorem setPixel_silent_noop_witness :
    setPixel [7, 7, 7] 1 0 5 9 9 9 = [7, 7, 7] :=
  setPixel_silent_noop [7, 7, 7] 1 1 0 5 9 9 9 (by norm_num)
    (by norm_num)

/-- C7: in each corner zone (following the source's branch chain), an offset
is painted iff its squared Euclidean distance to that corner's circle center
is at most `radius^2`; distance exactly `radius` is therefore painted
(exclusion uses strict `>`), and distance strictly beyond `radius` is not. -/
theorem insideRoundedRect_corner (w h radius dx dy : Nat) :
    ((dx : Int) < radius ∧ (dy : Int) < radius →
      insideRoundedRect w h radius dx dy =
        decide (((radius : Int) - dx) ^ 2 + ((radius : Int) - dy) ^ 2 ≤
          (radius : Int) ^ 2)) ∧
    (¬((dx : Int) < radius ∧ (dy : Int) < radius) →
      (w : Int) - radius ≤ dx ∧ (dy : Int) < radius →
      insideRoundedRect w h radius dx dy =
        decide (((dx : Int) - ((w : Int) - radius - 1)) ^ 2 +
          ((radius : Int) - dy) ^ 2 ≤ (radius : Int) ^ 2)) ∧
    (¬((dx : Int) < radius ∧ (dy : Int) < radius) →
      ¬((w : Int) - radius ≤ dx ∧ (dy : Int) < radius) →
      (dx : Int) < radius ∧ (h : Int) - radius ≤ dy →
      insideRoundedRect w h radius dx dy =
        decide (((radius : Int) - dx) ^ 2 +
          ((dy : Int) - ((h : Int) - radius - 1)) ^ 2 ≤ (radius : Int) ^ 2)) ∧
    (¬((dx : Int) < radius ∧ (dy : Int) < radius) →
      ¬((w : Int) - radius ≤ dx ∧ (dy : Int) < radius) →
      ¬((dx : Int) < radius ∧ (h : Int) - radius ≤ dy) →
      (w : Int) - radius ≤ dx ∧ (h : Int) - radius ≤ dy →
      insideRoundedRect w h radius dx dy =
        decide (((dx : Int) - ((w : Int) - radius - 1)) ^ 2 +
          ((dy : Int) - ((h : Int) - radius - 1)) ^ 2 ≤ (radius : Int) ^ 2)) := by
  unfold insideRoundedRect
  refine ⟨?_, ?_, ?_, ?_⟩
  · intro h1
    rw [if_pos h1]
    by_cases hq : ((radius : Int) - dx) ^ 2 + ((radius : Int) - dy) ^ 2 >
        (radius : Int) ^ 2
    · rw [if_pos hq]
      symm
      simpa using not_le_of_lt hq
    · rw [if_neg hq]
      symm
      simpa using le_of_not_lt hq
  · intro h1 h2
    rw [if_neg h1, if_pos h2]
    by_cases hq : ((dx : Int) - ((w : Int) - radius - 1)) ^ 2 +
        ((radius : Int) - dy) ^ 2 > (radius : Int) ^ 2
    · rw [if_pos hq]
      symm
      simpa using not_le_of_lt hq
    · rw [if_neg hq]
      symm
      simpa using le_of_not_lt hq
  · intro h1 h2 h3
    rw [if_neg h1, if_neg h2, if_pos h3]
    by_cases hq : ((radius : Int) - dx) ^ 2 +
        ((dy : Int) - ((h : Int) - radius - 1)) ^ 2 > (radius : Int) ^ 2
    · rw [if_pos hq]
      symm
      simpa using not_le_of_lt hq
    · rw [if_neg hq]
      symm
      simpa using le_of_not_lt hq
  · intro h1 h2 h3 h4
    rw [if_neg h1, if_neg h2, if_neg h3, if_pos h4]
    by_cases hq : ((dx : Int) - ((w : Int) - radius - 1)) ^ 2 +
        ((dy : Int) - ((h : Int) - radius - 1)) ^ 2 > (radius : Int) ^ 2
    · rw [if_pos hq]
      symm
      simpa using not_le_of_lt hq
    · rw [if_neg hq]
      symm
      simpa using le_of_not_lt hq

/-- Witness for C7: at `w = h = 10`, `radius = 5`, offset `(1,2)` the squared
distance to the top-left center is `16 + 9 = 25 = radius^2`, and the offset is
painted. -/
theorem insideRoundedRect_corner_witness :
    insideRoundedRect 10 10 5 1 2 =
      decide (((5 : Int) - 1) ^ 2 + ((5 : Int) - 2) ^ 2 ≤ (5 : Int) ^ 2) :=
  (insideRoundedRect_corner 10 10 5 1 2).1 (by norm_num)

/-- An ordinary filled rectangle: every offset of `[0,w)×[0,h)` painted via
`setPixel`, no exclusions — the shape C8 says `radius = 0` degenerates to. -/
def fillRect (pixels : List Nat) (width : Nat) (x0 y0 : Int)
    (w h : Nat) (r g b : Nat) : List Nat :=
  (List.range h).foldl (fun px (dy : Nat) =>
    (List.range w).foldl (fun px (dx : Nat) =>
      setPixel px width (x0 + dx) (y0 + dy) r g b) px) pixels

/-- C8: with `radius = 0` the corner test passes at every offset of the
rectangle, and `fillRoundedRect` coincides with the ordinary filled rectangle
`fillRect` — every pixel painted, subject only to `setPixel`'s clipping. -/
theorem fillRoundedRect_radius_zero (pixels : List Nat) (width : Nat)
    (x0 y0 : Int) (w h : Nat) (r g b : Nat) :
    (∀ dx dy, dx < w → dy < h → insideRoundedRect w h 0 dx dy = true) ∧
    fillRoundedRect pixels width x0 y0 w h 0 r g b =
      fillRect pixels width x0 y0 w h r g b := by
  have hins : ∀ dx dy : Nat, dx < w → dy < h →
      insideRoundedRect w h 0 dx dy = true := by
    intro dx dy hdx hdy
    unfold insideRoundedRect
    rw [if_neg (by omega), if_neg (by omega), if_neg (by omega),
      if_neg (by omega)]
  refine ⟨hins, ?_⟩
  unfold fillRoundedRect fillRect
  apply List.foldl_ext
  intro px dy hdy
  apply List.foldl_ext
  intro px' dx hdx
  rw [hins dx dy (List.mem_range.mp hdx) (List.mem_range.mp hdy), if_pos rfl]

/-- Witness for C8: at a 2×2 rectangle with `radius = 0`, offset `(0,1)` is
painted. -/
theorem fillRoundedRect_radius_zero_witness :
    insideRoundedRect 2 2 0 0 1 = true :=
  (fillRoundedRect_radius_zero [] 1 0 0 2 2 9 9 9).1 0 1 (by norm_num)
    (by norm_num)

/-! ### Buffer-level reasoning -/

/-- The three bytes of pixel `p` (row-major pixel index) in a raster buffer. -/
def getTriple (px : List Nat) (p : Nat) :
    Option Nat × Option Nat × Option Nat :=
  (px[3 * p]?, px[3 * p + 1]?, px[3 * p + 2]?)

lemma foldl_preserve {α β : Type} (P : β → Prop) (f : β → α → β)
    (l : List α) :
    ∀ s, (∀ a ∈ l, ∀ t, P t → P (f t a)) → P s → P (l.foldl f s) := by
  induction l with
  | nil => intro s _ hs; exact hs
  | cons a l ih =>
    intro s hf hs
    simp only [List.foldl_cons]
    exact ih _ (fun c hc t ht => hf c (List.mem_cons_of_mem _ hc) t ht)
      (hf a (List.mem_cons_self a l) s hs)

lemma setPixel_length (px : List Nat) (W : Nat) (x y : Int) (r g b : Nat) :
    (setPixel px W x y r g b).length = px.length := by
  unfold setPixel
  by_cases hg : x < 0 ∨ (W : Int) ≤ x ∨ y < 0
  · rw [if_pos hg]
  · rw [if_neg hg]
    by_cases hlen : px.length ≤ (y.toNat * W + x.toNat) * 3 + 2
    · rw [if_pos hlen]
    · rw [if_neg hlen]
      simp [List.length_set]

/-- Bytes outside the three target positions are untouched by `setPixel`. -/
lemma setPixel_get_outside (px : List Nat) (W : Nat) (x y : Int)
    (r g b : Nat) (i : Nat)
    (hne : 0 ≤ x → x < (W : Int) → 0 ≤ y →
      i < (y.toNat * W + x.toNat) * 3 ∨ (y.toNat * W + x.toNat) * 3 + 2 < i) :
    (setPixel px W x y r g b)[i]? = px[i]? := by
  unfold setPixel
  by_cases hg : x < 0 ∨ (W : Int) ≤ x ∨ y < 0
  · rw [if_pos hg]
  · rw [if_neg hg]
    push_neg at hg
    obtain ⟨hx0, hxW, hy0⟩ := hg
    by_cases hlen : px.length ≤ (y.toNat * W + x.toNat) * 3 + 2
    · rw [if_pos hlen]
    · rw [if_neg hlen]
      have hd := hne hx0 hxW hy0
      rw [List.getElem?_set_ne (by omega), List.getElem?_set_ne (by omega),
        List.getElem?_set_ne (by omega)]

/-- An in-bounds `setPixel` stores exactly the written color triple. -/
lemma setPixel_getTriple_self (px : List Nat) (W : Nat) (x y : Int)
    (r g b : Nat) (hx0 : 0 ≤ x) (hxW : x < (W : Int)) (hy0 : 0 ≤ y)
    (hlen : (y.toNat * W + x.toNat) * 3 + 2 < px.length) :
    getTriple (setPixel px W x y r g b) (y.toNat * W + x.toNat) =
      (some r, some g, some b) := by
  unfold setPixel getTriple
  rw [if_neg (by push_neg; exact ⟨hx0, hxW, hy0⟩), if_neg (by omega)]
  have h3 : (y.toNat * W + x.toNat) * 3 = 3 * (y.toNat * W + x.toNat) := by ring
  rw [h3]
  simp only [Prod.mk.injEq]
  refine ⟨?_, ?_, ?_⟩
  · rw [List.getElem?_set_ne (by omega), List.getElem?_set_ne (by omega),
      List.getElem?_set_self (by omega)]
  · rw [List.getElem?_set_ne (by omega),
      List.getElem?_set_self (by simp [List.length_set]; omega)]
  · rw [List.getElem?_set_self (by simp [List.length_set]; omega)]

/-- Lemma: `setPixel` either leaves a pixel's triple unchanged or overwrites it
wholly with the written color. -/
lemma setPixel_getTriple (px : List Nat) (W : Nat) (x y : Int)
    (r g b p : Nat) :
    getTriple (setPixel px W x y r g b) p = getTriple px p ∨
    getTriple (setPixel px W x y r g b) p = (some r, some g, some b) := by
  by_cases hg : x < 0 ∨ (W : Int) ≤ x ∨ y < 0
  · left
    unfold setPixel
    rw [if_pos hg]
  · by_cases hlen : px.length ≤ (y.toNat * W + x.toNat) * 3 + 2
    · left
      unfold setPixel
      rw [if_neg hg, if_pos hlen]
    · push_neg at hg
      obtain ⟨hx0, hxW, hy0⟩ := hg
      by_cases hp : y.toNat * W + x.toNat = p
      · right
        rw [← hp]
        exact setPixel_getTriple_self px W x y r g b hx0 hxW hy0 (by omega)
      · left
        unfold getTriple
        rw [setPixel_get_outside px W x y r g b (3 * p) (fun _ _ _ => by omega),
          setPixel_get_outside px W x y r g b (3 * p + 1) (fun _ _ _ => by omega),
          setPixel_get_outside px W x y r g b (3 * p + 2) (fun _ _ _ => by omega)]

/-- Every pixel below `N` holds one of the three icon colors. -/
def Palette (px : List Nat) (N : Nat) : Prop :=
  ∀ p, p < N →
    getTriple px p = (some 17, some 19, some 24) ∨
    getTriple px p = (some 249, some 115, some 22) ∨
    getTriple px p = (some 255, some 255, some 255)

lemma Palette_setPixel {r g b : Nat} (px : List Nat) (W : Nat) (x y : Int)
    (N : Nat)
    (hcol : (r = 17 ∧ g = 19 ∧ b = 24) ∨ (r = 249 ∧ g = 115 ∧ b = 22) ∨
      (r = 255 ∧ g = 255 ∧ b = 255))
    (h : Palette px N) : Palette (setPixel px W x y r g b) N := by
  intro p hp
  rcases setPixel_getTriple px W x y r g b p with heq | heq
  · rw [heq]
    exact h p hp
  · rw [heq]
    rcases hcol with ⟨rfl, rfl, rfl⟩ | ⟨rfl, rfl, rfl⟩ | ⟨rfl, rfl, rfl⟩
    · exact Or.inl rfl
    · exact Or.inr (Or.inl rfl)
    · exact Or.inr (Or.inr rfl)

/-- Painting one background row covers every pixel of that row. -/
lemma fillRow_cover (W H y r g b : Nat) (hy : y < H) :
    ∀ (k : Nat), k ≤ W → ∀ px : List Nat, px.length = W * H * 3 →
      (((List.range k).foldl (fun px (x : Nat) =>
          setPixel px W (x : Int) (y : Int) r g b) px).length = W * H * 3 ∧
       ∀ x, x < k → getTriple ((List.range k).foldl (fun px (x : Nat) =>
          setPixel px W (x : Int) (y : Int) r g b) px) (y * W + x) =
          (some r, some g, some b)) := by
  intro k
  induction k with
  | zero =>
    intro _ px hpx
    exact ⟨hpx, fun x hx => absurd hx (by omega)⟩
  | succ k ih =>
    intro hk px hpx
    rw [List.range_succ]
    simp only [List.foldl_append, List.foldl_cons, List.foldl_nil]
    obtain ⟨ihlen, ihcov⟩ := ih (by omega) px hpx
    refine ⟨by rw [setPixel_length]; exact ihlen, ?_⟩
    intro x hx
    by_cases hxk : x = k
    · rw [hxk]
      have h1 : (y + 1) * W ≤ H * W := Nat.mul_le_mul_right W (by omega)
      have h2 : (y + 1) * W = y * W + W := by ring
      have h4 : W * H * 3 = H * W * 3 := by ring
      have hq := setPixel_getTriple_self
        ((List.range k).foldl (fun px (x : Nat) =>
          setPixel px W (x : Int) (y : Int) r g b) px)
        W (k : Int) (y : Int) r g b (Int.natCast_nonneg k)
        (by exact_mod_cast (show k < W by omega)) (Int.natCast_nonneg y)
        (by simp only [Int.toNat_ofNat]; omega)
      simpa using hq
    · rcases setPixel_getTriple
        ((List.range k).foldl (fun px (x : Nat) =>
          setPixel px W (x : Int) (y : Int) r g b) px)
        W (k : Int) (y : Int) r g b (y * W + x) with h | h <;> rw [h]
      exact ihcov x (by omega)

/-- Lemma: `fillBackground` on a `W*H*3`-byte buffer covers every pixel with the
fill color. -/
lemma fillBackground_covers (W H : Nat) (px : List Nat) (r g b : Nat)
    (hpx : px.length = W * H * 3) :
    ∀ p, p < W * H →
      getTriple (fillBackground px W H r g b) p = (some r, some g, some b) := by
  suffices h : ∀ (m : Nat), m ≤ H → ∀ px : List Nat, px.length = W * H * 3 →
      (((List.range m).foldl (fun px (y : Nat) =>
          (List.range W).foldl (fun px (x : Nat) =>
            setPixel px W (x : Int) (y : Int) r g b) px) px).length =
        W * H * 3 ∧
       ∀ p, p < m * W → getTriple ((List.range m).foldl (fun px (y : Nat) =>
          (List.range W).foldl (fun px (x : Nat) =>
            setPixel px W (x : Int) (y : Int) r g b) px) px) p =
          (some r, some g, some b)) by
    intro p hp
    have hHW : H * W = W * H := by ring
    exact (h H le_rfl px hpx).2 p (by omega)
  intro m
  induction m with
  | zero =>
    intro _ px hpx
    exact ⟨hpx, fun p hp => absurd hp (by omega)⟩
  | succ m ih =>
    intro hm px hpx
    rw [List.range_succ]
    simp only [List.foldl_append, List.foldl_cons, List.foldl_nil]
    obtain ⟨ihlen, ihcov⟩ := ih (by omega) px hpx
    have hrow := fillRow_cover W H m r g b (by omega) W le_rfl _ ihlen
    refine ⟨hrow.1, ?_⟩
    intro p hp
    have hexp : (m + 1) * W = m * W + W := by ring
    rw [hexp] at hp
    by_cases hpm : p < m * W
    · refine foldl_preserve
        (fun t => getTriple t p = (some r, some g, some b)) _ _ _ ?_
        (ihcov p hpm)
      intro a _ t ht
      rcases setPixel_getTriple t W (a : Int) (m : Int) r g b p with h | h <;>
        rw [h]
      exact ht
    · obtain ⟨x, hx, rfl⟩ : ∃ x, x < W ∧ p = m * W + x :=
        ⟨p - m * W, by omega, by omega⟩
      exact hrow.2 x hx

lemma Palette_fillRoundedRect (px : List Nat) (W : Nat) (x0 y0 : Int)
    (w h radius N : Nat) (hp : Palette px N) :
    Palette (fillRoundedRect px W x0 y0 w h radius 249 115 22) N := by
  unfold fillRoundedRect
  refine foldl_preserve (Palette · N) _ _ _ ?_ hp
  intro dy _ t ht
  refine foldl_preserve (Palette · N) _ _ _ ?_ ht
  intro dx _ t' ht'
  by_cases hin : insideRoundedRect w h radius dx dy = true
  · rw [if_pos hin]
    exact Palette_setPixel t' W _ _ N (Or.inr (Or.inl ⟨rfl, rfl, rfl⟩)) ht'
  · rw [if_neg hin]
    exact ht'

lemma Palette_drawGlyph (px : List Nat) (W : Nat) (glyph : List (List Bool))
    (X Y : Int) (scale N : Nat) (hp : Palette px N) :
    Palette (drawGlyph px W glyph X Y scale 255 255 255) N := by
  unfold drawGlyph
  refine foldl_preserve (Palette · N) _ _ _ ?_ hp
  intro row _ t ht
  refine foldl_preserve (Palette · N) _ _ _ ?_ ht
  intro col _ t' ht'
  by_cases hcell : (glyph.getD row []).getD col false = true
  · rw [if_pos hcell]
    refine foldl_preserve (Palette · N) _ _ _ ?_ ht'
    intro sy _ u hu
    refine foldl_preserve (Palette · N) _ _ _ ?_ hu
    intro sx _ u' hu'
    exact Palette_setPixel u' W _ _ N (Or.inr (Or.inr ⟨rfl, rfl, rfl⟩)) hu'
  · rw [if_neg hcell]
    exact ht'

lemma Palette_drawRW (px : List Nat) (W : Nat) (rectX rectY rectW rectH : Int)
    (scale N : Nat) (hp : Palette px N) :
    Palette (drawRW px W rectX rectY rectW rectH scale) N := by
  unfold drawRW
  exact Palette_drawGlyph _ _ _ _ _ _ _ (Palette_drawGlyph _ _ _ _ _ _ _ hp)

/-- C10: after the icon pipeline (before encoding), every pixel of the `S×S`
raster holds one of exactly three RGB triples: the dark background
`(17,19,24)`, the accent orange `(249,115,22)`, or the text white
`(255,255,255)`. -/
theorem iconPixels_palette (S x y : Nat) (hx : x < S) (hy : y < S) :
    getTriple (iconPixels S) (y * S + x) = (some 17, some 19, some 24) ∨
    getTriple (iconPixels S) (y * S + x) = (some 249, some 115, some 22) ∨
    getTriple (iconPixels S) (y * S + x) = (some 255, some 255, some 255) := by
  have hlt : y * S + x < S * S := by
    have h1 : (y + 1) * S ≤ S * S := Nat.mul_le_mul_right S (by omega)
    have h2 : (y + 1) * S = y * S + S := by ring
    omega
  suffices h : Palette (iconPixels S) (S * S) from h _ hlt
  unfold iconPixels
  exact Palette_drawRW _ _ _ _ _ _ _ _
    (Palette_fillRoundedRect _ _ _ _ _ _ _ _
      (fun p hp => Or.inl (fillBackground_covers S S _ 17 19 24 (by simp) p hp)))

/-- Witness for C10: the single pixel of the size-1 icon raster is one of the
three palette colors. -/
theorem iconPixels_palette_witness :
    getTriple (iconPixels 1) (0 * 1 + 0) = (some 17, some 19, some 24) ∨
    getTriple (iconPixels 1) (0 * 1 + 0) = (some 249, some 115, some 22) ∨
    getTriple (iconPixels 1) (0 * 1 + 0) = (some 255, some 255, some 255) :=
  iconPixels_palette 1 0 0 (by norm_num) (by norm_num)

/-! ### Centered text layout (C9) -/

lemma pixel_coords {W x' y' p : Nat} (hW : 0 < W) (hx : x' < W)
    (hq : y' * W + x' = p) : p % W = x' ∧ p / W = y' := by
  subst hq
  constructor
  · rw [Nat.add_comm, Nat.add_mul_mod_self_right, Nat.mod_eq_of_lt hx]
  · rw [Nat.add_comm, Nat.mul_comm, Nat.add_mul_div_left _ _ hW,
      Nat.div_eq_of_lt hx, Nat.zero_add]

/-- Lemma: `drawGlyph` writes only inside the `7*scale × 9*scale` block at its
start position: any byte of a pixel no write can target is unchanged. -/
lemma drawGlyph_frame (px : List Nat) (W : Nat) (glyph : List (List Bool))
    (X Y : Int) (scale r g b p kk : Nat) (hkk : kk < 3)
    (hglyph : ∀ l ∈ glyph, l.length ≤ 7)
    (hout : ∀ x y : Int, 0 ≤ x → x < (W : Int) → 0 ≤ y →
      X ≤ x → x < X + 7 * (scale : Int) → Y ≤ y → y < Y + 9 * (scale : Int) →
      y.toNat * W + x.toNat ≠ p)
    (hrows : glyph.length ≤ 9) :
    (drawGlyph px W glyph X Y scale r g b)[3 * p + kk]? = px[3 * p + kk]? := by
  unfold drawGlyph
  refine foldl_preserve (fun t => t[3 * p + kk]? = px[3 * p + kk]?) _ _ _ ?_ rfl
  intro row hrow t ht
  have hrow9 : row < 9 := lt_of_lt_of_le (List.mem_range.mp hrow) hrows
  have hrowlen : row < glyph.length := List.mem_range.mp hrow
  refine foldl_preserve (fun t => t[3 * p + kk]? = px[3 * p + kk]?) _ _ _ ?_ ht
  intro col hcol t' ht'
  have hcol7 : col < 7 := by
    have hl : (glyph.getD row []).length ≤ 7 := by
      rw [List.getD_eq_getElem?_getD, List.getElem?_eq_getElem hrowlen]
      exact hglyph _ (List.getElem_mem hrowlen)
    exact lt_of_lt_of_le (List.mem_range.mp hcol) hl
  by_cases hcell : (glyph.getD row []).getD col false = true
  · rw [if_pos hcell]
    refine foldl_preserve (fun t => t[3 * p + kk]? = px[3 * p + kk]?) _ _ _ ?_ ht'
    intro sy hsy u hu
    have hsy9 : sy < scale := List.mem_range.mp hsy
    refine foldl_preserve (fun t => t[3 * p + kk]? = px[3 * p + kk]?) _ _ _ ?_ hu
    intro sx hsx u' hu'
    have hsx7 : sx < scale := List.mem_range.mp hsx
    have hstep : (setPixel u' W (X + (col : Int) * scale + (sx : Int))
        (Y + (row : Int) * scale + (sy : Int)) r g b)[3 * p + kk]? =
        u'[3 * p + kk]? := by
      apply setPixel_get_outside
      intro hx0 hxW hy0
      have hcs : col * scale + sx < 7 * scale := by
        have h6 : col * scale ≤ 6 * scale := Nat.mul_le_mul_right scale (by omega)
        omega
      have hrs : row * scale + sy < 9 * scale := by
        have h8 : row * scale ≤ 8 * scale := Nat.mul_le_mul_right scale (by omega)
        omega
      have hcsi : ((col : Int) * scale + (sx : Int)) < 7 * (scale : Int) := by
        exact_mod_cast hcs
      have hrsi : ((row : Int) * scale + (sy : Int)) < 9 * (scale : Int) := by
        exact_mod_cast hrs
      have hc0 : (0 : Int) ≤ (col : Int) * scale := by positivity
      have hr0 : (0 : Int) ≤ (row : Int) * scale := by positivity
      have hs0 : (0 : Int) ≤ (sx : Int) := Int.natCast_nonneg sx
      have hs0' : (0 : Int) ≤ (sy : Int) := Int.natCast_nonneg sy
      have hne := hout (X + (col : Int) * scale + (sx : Int))
        (Y + (row : Int) * scale + (sy : Int)) hx0 hxW hy0
        (by omega) (by omega) (by omega) (by omega)
      omega
    rw [hstep]
    exact hu'
  · rw [if_neg hcell]
    exact ht'

/-- C9: whenever the bounding rectangle is at least as large as the text
block (`totalTextW = 7*scale*2 + gap`, `totalTextH = 9*scale`,
`gap = round(scale*1.5)`), the centered layout places the block's top-left at
`rectOrigin + round((rectSize - blockSize)/2)` on each axis, the placed block
lies within the bounding rectangle on both axes, and `drawRW` changes no byte
of any pixel outside the bounding rectangle. -/
theorem drawRW_centered (px : List Nat) (W : Nat) (rectX rectY rectW rectH : Int)
    (scale : Nat) (hW : 0 < W)
    (hrw : ((7 * scale * 2 + (3 * scale + 1) / 2 : Nat) : Int) ≤ rectW)
    (hrh : ((9 * scale : Nat) : Int) ≤ rectH) :
    (rectX ≤ rectX +
        roundHalf (rectW - ((7 * scale * 2 + (3 * scale + 1) / 2 : Nat) : Int)) ∧
      rectX + roundHalf (rectW - ((7 * scale * 2 + (3 * scale + 1) / 2 : Nat) : Int)) +
        ((7 * scale * 2 + (3 * scale + 1) / 2 : Nat) : Int) ≤ rectX + rectW) ∧
    (rectY ≤ rectY + roundHalf (rectH - ((9 * scale : Nat) : Int)) ∧
      rectY + roundHalf (rectH - ((9 * scale : Nat) : Int)) +
        ((9 * scale : Nat) : Int) ≤ rectY + rectH) ∧
    (∀ p kk : Nat, kk < 3 →
      (((p % W : Nat) : Int) < rectX ∨ rectX + rectW ≤ ((p % W : Nat) : Int) ∨
        ((p / W : Nat) : Int) < rectY ∨ rectY + rectH ≤ ((p / W : Nat) : Int)) →
      (drawRW px W rectX rectY rectW rectH scale)[3 * p + kk]? =
        px[3 * p + kk]?) := by
  have hb : 0 ≤ roundHalf (rectW - ((7 * scale * 2 + (3 * scale + 1) / 2 : Nat) : Int)) ∧
      roundHalf (rectW - ((7 * scale * 2 + (3 * scale + 1) / 2 : Nat) : Int)) ≤
        rectW - ((7 * scale * 2 + (3 * scale + 1) / 2 : Nat) : Int) := by
    unfold roundHalf
    omega
  have hb' : 0 ≤ roundHalf (rectH - ((9 * scale : Nat) : Int)) ∧
      roundHalf (rectH - ((9 * scale : Nat) : Int)) ≤
        rectH - ((9 * scale : Nat) : Int) := by
    unfold roundHalf
    omega
  refine ⟨⟨by omega, by omega⟩, ⟨by omega, by omega⟩, ?_⟩
  intro p kk hkk hout
  unfold drawRW
  have hgap : ((7 * scale + (3 * scale + 1) / 2 : Nat) : Int) + 7 * (scale : Int) =
      ((7 * scale * 2 + (3 * scale + 1) / 2 : Nat) : Int) := by
    push_cast
    ring
  rw [drawGlyph_frame _ W GLYPH_W _ _ scale 255 255 255 p kk hkk (by decide)
      ?houtW (by decide),
    drawGlyph_frame _ W GLYPH_R _ _ scale 255 255 255 p kk hkk (by decide)
      ?houtR (by decide)]
  case houtW =>
    intro x y hx0 hxW hy0 hXle hXlt hYle hYlt heq
    have hxn : x.toNat < W := by omega
    obtain ⟨hmod, hdiv⟩ := pixel_coords hW hxn heq
    have hxeq : ((p % W : Nat) : Int) = x := by
      rw [hmod]
      exact Int.toNat_of_nonneg hx0
    have hyeq : ((p / W : Nat) : Int) = y := by
      rw [hdiv]
      exact Int.toNat_of_nonneg hy0
    rcases hout with h | h | h | h <;> omega
  case houtR =>
    intro x y hx0 hxW hy0 hXle hXlt hYle hYlt heq
    have hxn : x.toNat < W := by omega
    obtain ⟨hmod, hdiv⟩ := pixel_coords hW hxn heq
    have hxeq : ((p % W : Nat) : Int) = x := by
      rw [hmod]
      exact Int.toNat_of_nonneg hx0
    have hyeq : ((p / W : Nat) : Int) = y := by
      rw [hdiv]
      exact Int.toNat_of_nonneg hy0
    rcases hout with h | h | h | h <;> omega

/-- Witness for C9: at scale 1 in a 20×20 rectangle at the origin of a 30-wide
image placed at x = 25, the byte of pixel 0 (column 0, left of the
rectangle) is untouched. -/
theorem drawRW_centered_witness :
    (drawRW [5, 6, 7] 30 25 25 20 20 1)[3 * 0 + 0]? = [5, 6, 7][3 * 0 + 0]? :=
  (drawRW_centered [5, 6, 7] 30 25 25 20 20 1 (by norm_num) (by norm_num)
    (by norm_num)).2.2 0 0 (by norm_num) (by norm_num)

end RemoteWorkTimer
